import Mathlib

/-!
Verification of the ktask parallel work decomposer (kernel/ktask.c).

The definitions below are a shallow embedding of the decomposer's data model
and operations: the chunking policy (`ktask_chunk_size`), the resource
governor (`KtaskRlim` with reserve / re-pin / release), worker-count setup
(`ktask_init_works`), the node-selection scan of the worker loop
(`ktask_pick_node`), and the worker loop itself, both as a serial executor
(`ktask_thread_go`, exact for single-worker runs) and as a small-step trace
semantics (`KStep` / `KRun`) covering arbitrary interleavings of the
lock-protected claim, callback-return and loop-exit actions.

Machine integers are modelled as `Nat` (sizes, counters) and `Int`
(node ids, where `NUMA_NO_NODE = -1`, and error codes).
-/

namespace Ktask

/-! ### Constants (ktask.c lines 39-41, 75-77; NUMA_NO_NODE from numa.h) -/

def KTASK_RETURN_SUCCESS : Int := 0

def NUMA_NO_NODE : Int := -1

def KTASK_LOAD_BAL_SHIFT : Nat := 2

def KTASK_DEFAULT_MAX_THREADS : Nat := 4

/-- Linux `rounddown(x, y) = x - (x % y)`. -/
def rounddown (x y : Nat) : Nat := x - x % y

/-- Linux `DIV_ROUND_UP(n, d) = (n + d - 1) / d`. -/
def DIV_ROUND_UP (n d : Nat) : Nat := (n + d - 1) / d

/-! ### Node descriptor (struct ktask_node).  The cursor `kn_start` is a byte
position (the default iterator `ktask_iter_range` advances it by `size`). -/

structure KtaskNode where
  kn_start : Nat
  kn_task_size : Nat
  kn_nid : Int
deriving DecidableEq

instance : Inhabited KtaskNode := ⟨⟨0, 0, NUMA_NO_NODE⟩⟩

/-- The default iterator (ktask.c lines 522-525): advance the cursor by `size`. -/
def ktask_iter_range (position size : Nat) : Nat := position + size

/-! ### Chunker (ktask.c lines 251-269) -/

def ktask_chunk_size (task_size min_chunk_size nworks : Nat) : Nat :=
  if nworks = 1 then
    task_size
  else
    let chunk_size := (task_size / nworks) >>> KTASK_LOAD_BAL_SHIFT
    let chunk_size :=
      if chunk_size > min_chunk_size then rounddown chunk_size min_chunk_size
      else chunk_size
    max chunk_size min_chunk_size

/-- Reference chunking algorithm, written from the spec's words (§4.1):
if `workers == 1` return `total`; otherwise `candidate = (total / workers) >> 2`,
rounded down to a multiple of `min_grain` when `candidate > min_grain`, and the
result is `max(candidate, min_grain)`. -/
def chunk_size_spec (total min_grain workers : Nat) : Nat :=
  if workers = 1 then
    total
  else
    let candidate := (total / workers) >>> 2
    let candidate2 :=
      if candidate > min_grain then candidate / min_grain * min_grain
      else candidate
    max candidate2 min_grain

/-! ### Resource governor state (ktask.c lines 31-37).  The per-node arrays
`ktask_rlim_node_cur` / `ktask_rlim_node_max` are indexed by C `int` node ids,
so they are modelled as total maps `Int → Nat`; validity of the indices the
code actually uses is a separate concern (see `ktask_node_migrate_rlim_reads`). -/

structure KtaskRlim where
  cur : Nat
  max : Nat
  node_cur : Int → Nat
  node_max : Int → Nat

/-- Pointwise array store. -/
def upd (f : Int → Nat) (i : Int) (v : Nat) : Int → Nat :=
  fun j => if j = i then v else f j

/-- One reservation attempt: the body of the `ktask_init_works` loop restricted
to its effect on the governor counters (ktask.c lines 309-330).  Returns `none`
when the global cap is reached (the `break`), otherwise the updated counters and
the queue nid granted (the requested nid if its per-node cap allows, else
`NUMA_NO_NODE`). -/
def ktask_try_reserve (r : KtaskRlim) (nid : Int) : Option (KtaskRlim × Int) :=
  if r.cur = r.max then
    none
  else if nid ≠ NUMA_NO_NODE ∧ r.node_cur nid < r.node_max nid then
    some ({ r with
            cur := r.cur + 1
            node_cur := upd r.node_cur nid (r.node_cur nid + 1) }, nid)
  else
    some ({ r with cur := r.cur + 1 }, NUMA_NO_NODE)

/-- The resource-limit adjustment performed by `ktask_node_migrate`
(ktask.c lines 142-154): decrement the old binding's per-node counter (when
bound), then, *as the code is written*, test
`ktask_rlim_node_cur[kw_queue_nid] < ktask_rlim_node_max[kw_queue_nid]` — the
counters of the OLD binding `kw_queue_nid`, not of the destination — and when
the test passes bind to the destination `kn_nid` and increment its counter;
otherwise the new binding is `NUMA_NO_NODE`.  Returns the updated counters and
the new queue nid. -/
def ktask_rlim_repin (r : KtaskRlim) (kw_queue_nid kn_nid : Int) :
    KtaskRlim × Int :=
  let r1 :=
    if kw_queue_nid ≠ NUMA_NO_NODE then
      { r with node_cur := upd r.node_cur kw_queue_nid
                 (r.node_cur kw_queue_nid - 1) }
    else r
  if kn_nid ≠ NUMA_NO_NODE ∧ r1.node_cur kw_queue_nid < r1.node_max kw_queue_nid then
    ({ r1 with node_cur := upd r1.node_cur kn_nid (r1.node_cur kn_nid + 1) },
     kn_nid)
  else
    (r1, NUMA_NO_NODE)

/-- Release of one reservation: the per-work body of `ktask_fini_works`
(ktask.c lines 345-351). -/
def ktask_rlim_release (r : KtaskRlim) (queue_nid : Int) : KtaskRlim :=
  let r1 :=
    if queue_nid ≠ NUMA_NO_NODE then
      { r with node_cur := upd r.node_cur queue_nid (r.node_cur queue_nid - 1) }
    else r
  { r1 with cur := r1.cur - 1 }

/-- The early-return guard of `ktask_node_migrate` (ktask.c lines 137-139):
migration proceeds iff NUMA is configured, the current thread is a kthread
(not the caller's user thread), the destination differs from the old node, and
more than one node is online. -/
def ktask_node_migrate_guard (numa_enabled is_kthread : Bool)
    (old_nid kn_nid : Int) (online_nodes : Nat) : Bool :=
  !(!numa_enabled || !is_kthread || kn_nid == old_nid || online_nodes == 1)

/-- The `Int` indices at which the resource-limit section of
`ktask_node_migrate` (ktask.c lines 142-153) reads the per-node arrays
`ktask_rlim_node_cur` / `ktask_rlim_node_max`, in program order: the decrement
`--ktask_rlim_node_cur[kw->kw_queue_nid]` is guarded by
`kw_queue_nid != NUMA_NO_NODE`, but the cap check then reads
`ktask_rlim_node_cur[kw->kw_queue_nid]` and `ktask_rlim_node_max[kw->kw_queue_nid]`
guarded only by `kn_nid != NUMA_NO_NODE`. -/
def ktask_node_migrate_rlim_reads (kw_queue_nid kn_nid : Int) : List Int :=
  (if kw_queue_nid ≠ NUMA_NO_NODE then [kw_queue_nid] else []) ++
  (if kn_nid ≠ NUMA_NO_NODE then [kw_queue_nid, kw_queue_nid] else [])

/-! ### Worker-count setup (ktask_init_works, ktask.c lines 276-335) -/

/-- The reservation loop of `ktask_init_works` (lines 300-332) over the list of
loop indices `i` (each mapped to node `i % nr_nodes`).  Stops early when
`ktask_try_reserve` hits the global cap. -/
def initWorksGo (nodesL : List KtaskNode) :
    List Nat → KtaskRlim → Nat → Nat × KtaskRlim
  | [], r, nr_works => (nr_works, r)
  | i :: rest, r, nr_works =>
    match ktask_try_reserve r
        ((nodesL.getD (i % nodesL.length) default).kn_nid) with
    | none => (nr_works, r)
    | some (r2, _) => initWorksGo nodesL rest r2 (nr_works + 1)

/-- The bound `nr_works_check` of ktask.c lines 287-293: `max_threads = 0`
selects the process default, and the wanted count `DIV_ROUND_UP(total,
min_chunk_size)` is clamped to the online cpus, then to `max_threads`. -/
def ktask_nr_works_check (cpus total min_chunk_size max_threads : Nat) : Nat :=
  min (min (DIV_ROUND_UP total min_chunk_size) cpus)
    (if max_threads = 0 then KTASK_DEFAULT_MAX_THREADS else max_threads)

/-- `ktask_init_works` (ktask.c lines 276-335), restricted to the number of
works it returns and its effect on the governor counters.  `wq` is the
availability of `ktask_wq`; when it is false the function returns 1 at once.
`nr_works_check = min(DIV_ROUND_UP(total, min_chunk), online cpus, max_threads)`
with `max_threads = 0` replaced by the process default, and the loop runs for
`i = 1 .. nr_works_check - 1`. -/
def ktask_init_works (wq : Bool) (cpus : Nat) (nodesL : List KtaskNode)
    (total min_chunk_size max_threads : Nat) (r : KtaskRlim) :
    Nat × KtaskRlim :=
  if !wq then
    (1, r)
  else
    let nr_works_check := ktask_nr_works_check cpus total min_chunk_size max_threads
    initWorksGo nodesL ((List.range nr_works_check).drop 1) r 1

/-! ### Node selection scan (ktask_thread, ktask.c lines 179-196) -/

/-- The scan loop of the worker's node re-selection, exactly as written:
`for (i = 0; i < nr_nodes; ++i) { if (size == 0) continue;
if (seen >= new_idx) break; ++seen; }`; the result is the final `i`
(the list length if the loop falls through). -/
def pickGo (new_idx : Nat) : List KtaskNode → Nat → Nat → Nat
  | [], i, _ => i
  | kn :: rest, i, seen =>
    if kn.kn_task_size = 0 then pickGo new_idx rest (i + 1) seen
    else if new_idx ≤ seen then i
    else pickGo new_idx rest (i + 1) (seen + 1)

def ktask_pick_node (nodesL : List KtaskNode) (new_idx : Nat) : Nat :=
  pickGo new_idx nodesL 0 0

/-- Written from the spec's words (§4.6): the index of the descriptor reached
by counting only descriptors with remaining work and stopping at the r-th such
descriptor (0-based, i.e. the (r+1)-th in order). -/
def spec_nth_nonzero : List KtaskNode → Nat → Option Nat
  | [], _ => none
  | kn :: rest, r =>
    if kn.kn_task_size = 0 then (spec_nth_nonzero rest r).map (· + 1)
    else if r = 0 then some 0
    else (spec_nth_nonzero rest (r - 1)).map (· + 1)

/-! ### Job state and the worker loop (struct ktask_task, ktask_thread)

The shared job state protected by `kt_mutex`.  The node-descriptor array is a
total map `Nat → KtaskNode` together with its length `kt_nr_nodes`; `active`
counts the workers that have not yet incremented `kt_nworks_fini` (the caller
thread included). -/

structure KJob where
  nodes : Nat → KtaskNode
  kt_nr_nodes : Nat
  kt_total_size : Nat
  kt_nr_nodes_left : Nat
  kt_error : Int
  kt_chunk_size : Nat
  active : Nat

/-- One lock-protected claim on node `i` (ktask.c lines 208-218):
`size = min(chunk_size, task_size)`, the range handed to the processing
callback is `[start, iter(start, size))` with the default iterator, the node's
cursor advances to the range's end, and the node, total and nodes-left
counters are updated.  Returns the new state and the issued range. -/
def claimNode (st : KJob) (i : Nat) : KJob × (Nat × Nat) :=
  let kn := st.nodes i
  let size := min st.kt_chunk_size kn.kn_task_size
  let start := kn.kn_start
  let finish := ktask_iter_range start size
  let newSize := kn.kn_task_size - size
  ({ st with
     nodes := Function.update st.nodes i
       { kn with kn_start := finish, kn_task_size := newSize }
     kt_total_size := st.kt_total_size - size
     kt_nr_nodes_left :=
       if newSize = 0 then st.kt_nr_nodes_left - 1 else st.kt_nr_nodes_left },
   (start, finish))

/-- The atomic lock-protected actions of `ktask_thread`, as trace events:
a chunk claim (with the issued range), the recording of a processing-callback
return value, and a worker leaving the loop. -/
inductive KEvent where
  | claim (i : Nat) (range : Nat × Nat)
  | finish (ret : Int)
  | exits
deriving DecidableEq

/-- Small-step interleaving semantics of the worker loop (ktask.c lines
162-241).  Each constructor is one critical section:

* `claim`: the loop condition `kt_total_size > 0 && kt_error == SUCCESS` holds
  (line 172), some not-yet-finished worker is running, and the claimed node
  has work left (a worker claims its current node, or, when that is exhausted,
  the freshly selected node, which by lines 177-199 has `kn_task_size > 0`;
  the choice of node is left nondeterministic here, which includes every
  behaviour of the code).
* `finish`: a processing-callback return `ret` is recorded under the lock by
  the first-error latch of lines 226-228.
* `exits`: a worker for which the loop condition fails leaves the loop and
  increments `kt_nworks_fini` (lines 229-236). -/
inductive KStep : KJob → KEvent → KJob → Prop where
  | claim (st : KJob) (i : Nat)
      (herr : st.kt_error = KTASK_RETURN_SUCCESS)
      (htot : 0 < st.kt_total_size)
      (hact : 0 < st.active)
      (hi : i < st.kt_nr_nodes)
      (hsz : 0 < (st.nodes i).kn_task_size) :
      KStep st (.claim i (claimNode st i).2) (claimNode st i).1
  | finish (st : KJob) (ret : Int) :
      KStep st (.finish ret)
        { st with
          kt_error :=
            if st.kt_error = KTASK_RETURN_SUCCESS ∧ ret ≠ st.kt_error then ret
            else st.kt_error }
  | exits (st : KJob)
      (hact : 0 < st.active)
      (hguard : st.kt_total_size = 0 ∨ st.kt_error ≠ KTASK_RETURN_SUCCESS) :
      KStep st .exits { st with active := st.active - 1 }

/-- A run: a sequence of interleaved critical sections with its trace. -/
inductive KRun : KJob → List KEvent → KJob → Prop where
  | nil (st : KJob) : KRun st [] st
  | cons {st st2 st3 : KJob} {e : KEvent} {tr : List KEvent}
      (hstep : KStep st e st2) (hrest : KRun st2 tr st3) :
      KRun st (e :: tr) st3

/-- The job state built by `ktask_run_numa` before any worker runs
(ktask.c lines 365-381 and 389): `kt_total_size` is the sum of the node sizes,
`kt_nr_nodes_left` the number of nodes with non-zero size, the first-error
slot holds SUCCESS, and `nworks` workers (the caller thread included) are
about to run the loop. -/
def ktask_task_init (nodes0 : Nat → KtaskNode) (nr chunk nworks : Nat) :
    KJob :=
  { nodes := nodes0
    kt_nr_nodes := nr
    kt_total_size := ∑ i in Finset.range nr, (nodes0 i).kn_task_size
    kt_nr_nodes_left :=
      ((Finset.range nr).filter (fun i => (nodes0 i).kn_task_size ≠ 0)).card
    kt_error := KTASK_RETURN_SUCCESS
    kt_chunk_size := chunk
    active := nworks }

/-! Trace observations. -/

/-- The ranges handed to the processing callback, in claim order. -/
def allRanges : List KEvent → List (Nat × Nat)
  | [] => []
  | .claim _ r :: tr => r :: allRanges tr
  | _ :: tr => allRanges tr

/-- The ranges claimed on node `i`, in claim order. -/
def nodeRanges (i : Nat) : List KEvent → List (Nat × Nat)
  | [] => []
  | .claim j r :: tr =>
    if j = i then r :: nodeRanges i tr else nodeRanges i tr
  | _ :: tr => nodeRanges i tr

/-- The processing-callback return values, in the order they reach the lock. -/
def finishRets : List KEvent → List Int
  | [] => []
  | .finish ret :: tr => ret :: finishRets tr
  | _ :: tr => finishRets tr

/-- The number of chunk claims in a trace. -/
def claimCount : List KEvent → Nat
  | [] => 0
  | .claim _ _ :: tr => claimCount tr + 1
  | _ :: tr => claimCount tr

/-- The first non-SUCCESS value of a list of return codes, SUCCESS if none. -/
def firstErr : List Int → Int
  | [] => KTASK_RETURN_SUCCESS
  | ret :: l => if ret = KTASK_RETURN_SUCCESS then firstErr l else ret

/-- `IsChain a l b`: the ranges of `l`, in order, tile `[a, b)` leaving no gap:
each range starts where the previous ended, the first starts at `a`, the last
ends at `b`. -/
def IsChain : Nat → List (Nat × Nat) → Nat → Prop
  | a, [], b => a = b
  | a, r :: l, b => r.1 = a ∧ a ≤ r.2 ∧ IsChain r.2 l b

/-- Disjointness of half-open ranges. -/
def RDisj (r s : Nat × Nat) : Prop := r.2 ≤ s.1 ∨ s.2 ≤ r.1

/-- `kt_total_size` agrees with the sum of the per-node remaining sizes
(the data-model invariant of spec §3). -/
def TotalInv (st : KJob) : Prop :=
  st.kt_total_size = ∑ i in Finset.range st.kt_nr_nodes, (st.nodes i).kn_task_size

/-- The per-node remaining spans `[kn_start, kn_start + kn_task_size)` are
pairwise disjoint. -/
def SpanDisj (st : KJob) : Prop :=
  ∀ i j, i < st.kt_nr_nodes → j < st.kt_nr_nodes → i ≠ j →
    (st.nodes i).kn_start + (st.nodes i).kn_task_size ≤ (st.nodes j).kn_start ∨
    (st.nodes j).kn_start + (st.nodes j).kn_task_size ≤ (st.nodes i).kn_start

/-- A run can only be over (all workers past the `kt_nworks_fini` increment)
with `kt_error` still SUCCESS if the whole job was consumed: each worker's
loop exits only when `kt_total_size = 0` or an error is latched (ktask.c line
172). -/
def EndInv (st : KJob) : Prop :=
  st.active = 0 → st.kt_error = KTASK_RETURN_SUCCESS → st.kt_total_size = 0

/-! ### Serial executor

When `ktask_init_works` returns 1, no work item is queued (`works_list` stays
empty) and the whole job is executed by the caller thread running
`ktask_thread` (ktask.c lines 397-399): the loop below is that execution,
exact for this case.  The caller thread is a user thread, so
`ktask_node_migrate` always returns false for it (line 137: `PF_KTHREAD` is
not set) and no migration is modelled.  `proc` is the processing callback,
`rand` the per-iteration source of `prandom_u32_max` draws, `fuel` a bound on
iterations (the loop itself terminates; `none` means fuel ran out). -/

def nodesList (st : KJob) : List KtaskNode :=
  (List.range st.kt_nr_nodes).map st.nodes

def ktask_thread_go (proc : Nat → Nat → Int) (rand : Nat → Nat) :
    Nat → KJob → Nat → List (Nat × Nat) → Option (KJob × List (Nat × Nat))
  | 0, _, _, _ => none
  | fuel + 1, st, cur, acc =>
    if 0 < st.kt_total_size ∧ st.kt_error = KTASK_RETURN_SUCCESS then
      let cur2 :=
        if (st.nodes cur).kn_task_size = 0 then
          ktask_pick_node (nodesList st) (rand fuel % st.kt_nr_nodes_left)
        else cur
      let res := claimNode st cur2
      let ret := proc res.2.1 res.2.2
      let st2 := res.1
      let st3 :=
        { st2 with
          kt_error :=
            if st2.kt_error = KTASK_RETURN_SUCCESS ∧ ret ≠ st2.kt_error then ret
            else st2.kt_error }
      ktask_thread_go proc rand fuel st3 cur2 (acc ++ [res.2])
    else
      some (st, acc)

/-- What `ktask_run_numa` returns and does, as far as observable here. -/
structure RunOutcome where
  status : Int
  calls : List (Nat × Nat)
  rlim : KtaskRlim

/-- `ktask_run_numa` (ktask.c lines 358-408): sum the node sizes and count the
nodes with work (lines 365-381); return SUCCESS at once when the total is 0
(lines 383-384); otherwise set up the works and the chunk size (lines
389-392) and run.  The multi-worker dispatch (lines 394-395) is covered by
the `KRun` trace semantics; this executable model handles the
`kt_nworks = 1` case, where `works_list` is empty, only the caller thread
runs `ktask_thread` starting at node index 0 (line 398), and
`ktask_fini_works` finds nothing to release. -/
def ktask_run_numa_model (fuel : Nat) (nodesL : List KtaskNode)
    (min_chunk_size max_threads : Nat) (proc : Nat → Nat → Int)
    (rand : Nat → Nat) (wq : Bool) (cpus : Nat) (r : KtaskRlim) :
    Option RunOutcome :=
  let total := (nodesL.map (fun kn => kn.kn_task_size)).sum
  if total = 0 then
    some ⟨KTASK_RETURN_SUCCESS, [], r⟩
  else
    let iw := ktask_init_works wq cpus nodesL total min_chunk_size max_threads r
    let nworks := iw.1
    let chunk := ktask_chunk_size total min_chunk_size nworks
    if nworks = 1 then
      let st0 : KJob :=
        { nodes := fun i => nodesL.getD i default
          kt_nr_nodes := nodesL.length
          kt_total_size := total
          kt_nr_nodes_left := nodesL.countP (fun kn => kn.kn_task_size != 0)
          kt_error := KTASK_RETURN_SUCCESS
          kt_chunk_size := chunk
          active := 1 }
      match ktask_thread_go proc rand fuel st0 0 [] with
      | none => none
      | some (stf, calls) => some ⟨stf.kt_error, calls, iw.2⟩
    else
      none

/-! ### Concrete governor states for the scenarios below. -/

/-- A host with caps wide enough not to interfere: global cap 6, per-node
cap 3, nothing in flight. -/
def rlimA : KtaskRlim :=
  { cur := 0, max := 6, node_cur := fun _ => 0, node_max := fun _ => 3 }

/-- A two-node host at 80%-of-cpus caps 1 per node, 2 global, nothing in
flight. -/
def rlimC1 : KtaskRlim :=
  { cur := 0, max := 2, node_cur := fun _ => 0
    node_max := fun n => if n = 0 ∨ n = 1 then 1 else 0 }

/-! ### Concrete jobs and traces for the scenarios below. -/

/-- One node: a 4-byte buffer at cursor 0 on node 0. -/
def nodesA : Nat → KtaskNode := fun _ => ⟨0, 4, 0⟩

/-- A single-worker job over `nodesA` with chunk size 4. -/
def jobA : KJob := ktask_task_init nodesA 1 4 1

def jobA1 : KJob := (claimNode jobA 0).1

def jobAFin : KJob := { jobA1 with active := jobA1.active - 1 }

/-- The sole worker claims the whole buffer and leaves the loop. -/
def trA : List KEvent := [KEvent.claim 0 (0, 4), KEvent.exits]

/-- One node: a 2-byte buffer at cursor 0 on node 0. -/
def nodesB : Nat → KtaskNode := fun _ => ⟨0, 2, 0⟩

/-- A single-worker job over `nodesB` with chunk size 1. -/
def jobB : KJob := ktask_task_init nodesB 1 1 1

def jobB1 : KJob := (claimNode jobB 0).1

def jobB2 : KJob := { jobB1 with kt_error := 7 }

def jobBFin : KJob := { jobB2 with active := jobB2.active - 1 }

/-- The worker claims one chunk, its callback returns error 7, and it leaves
the loop on its next lock acquisition. -/
def trB : List KEvent := [KEvent.claim 0 (0, 1), KEvent.finish 7, KEvent.exits]

/-! ## Theorems -/

/-! ### Helper lemmas (shared) -/

theorem rounddown_eq_div_mul (x y : Nat) : rounddown x y = x / y * y := by
  have h := Nat.div_add_mod x y
  rw [Nat.mul_comm] at h
  unfold rounddown
  omega

theorem ktask_try_reserve_none {r : KtaskRlim} {nid : Int} :
    ktask_try_reserve r nid = none ↔ r.cur = r.max := by
  unfold ktask_try_reserve
  split_ifs <;> simp_all

theorem ktask_try_reserve_some {r r2 : KtaskRlim} {nid q : Int}
    (h : ktask_try_reserve r nid = some (r2, q)) :
    r2.cur = r.cur + 1 ∧ r2.max = r.max := by
  unfold ktask_try_reserve at h
  by_cases h1 : r.cur = r.max
  · rw [if_pos h1] at h
    exact absurd h (by simp)
  · rw [if_neg h1] at h
    by_cases h2 : nid ≠ NUMA_NO_NODE ∧ r.node_cur nid < r.node_max nid
    · rw [if_pos h2] at h
      injection h with h3
      injection h3 with h4 h5
      rw [← h4]
      exact ⟨rfl, rfl⟩
    · rw [if_neg h2] at h
      injection h with h3
      injection h3 with h4 h5
      rw [← h4]
      exact ⟨rfl, rfl⟩

theorem initWorksGo_ge (nodesL : List KtaskNode) :
    ∀ (l : List Nat) (r : KtaskRlim) (nw : Nat),
      nw ≤ (initWorksGo nodesL l r nw).1
  | [], r, nw => le_refl _
  | i :: rest, r, nw => by
    unfold initWorksGo
    cases h : ktask_try_reserve r ((nodesL.getD (i % nodesL.length) default).kn_nid) with
    | none => exact le_refl _
    | some p =>
      calc nw ≤ nw + 1 := Nat.le_succ _
        _ ≤ _ := initWorksGo_ge nodesL rest p.1 (nw + 1)

theorem initWorksGo_le (nodesL : List KtaskNode) :
    ∀ (l : List Nat) (r : KtaskRlim) (nw : Nat),
      (initWorksGo nodesL l r nw).1 ≤ nw + l.length
  | [], r, nw => le_refl _
  | i :: rest, r, nw => by
    unfold initWorksGo
    cases h : ktask_try_reserve r ((nodesL.getD (i % nodesL.length) default).kn_nid) with
    | none => simp
    | some p =>
      have := initWorksGo_le nodesL rest p.1 (nw + 1)
      simpa [Nat.add_comm, Nat.add_assoc, Nat.add_left_comm] using this

theorem initWorksGo_full (nodesL : List KtaskNode) :
    ∀ (l : List Nat) (r : KtaskRlim) (nw : Nat),
      r.cur + l.length ≤ r.max →
      (initWorksGo nodesL l r nw).1 = nw + l.length
  | [], r, nw, _ => rfl
  | i :: rest, r, nw, h => by
    unfold initWorksGo
    cases hres : ktask_try_reserve r ((nodesL.getD (i % nodesL.length) default).kn_nid) with
    | none =>
      have := ktask_try_reserve_none.mp hres
      simp at h
      omega
    | some p =>
      obtain ⟨hc, hm⟩ := ktask_try_reserve_some hres
      have hrec := initWorksGo_full nodesL rest p.1 (nw + 1) (by simp at h ⊢; omega)
      simp at hrec ⊢
      omega

/-! ### C3 -/

/-- C3 counterexample: at `total = 10`, `min_grain = 64 ≥ 1`, `workers = 1 ≥ 1`
the chunker returns 10, violating the claimed postcondition
`size ≥ min_grain`. -/
theorem ktask_C3_cex :
    1 ≤ 64 ∧ 1 ≤ 1 ∧ ktask_chunk_size 10 64 1 = 10 ∧
      ¬ 64 ≤ ktask_chunk_size 10 64 1 := by
  decide

/-- C3 (amended): when `workers = 1` the chunker returns `total` (hence
`size ≤ total`); when `workers ≥ 2` the returned size satisfies
`size ≥ min_grain` and is a multiple of `min_grain` whenever it exceeds
`min_grain`. -/
theorem ktask_C3_amended (total min_grain workers : Nat) :
    (workers = 1 → ktask_chunk_size total min_grain workers = total) ∧
    (2 ≤ workers →
      min_grain ≤ ktask_chunk_size total min_grain workers ∧
      (min_grain < ktask_chunk_size total min_grain workers →
        min_grain ∣ ktask_chunk_size total min_grain workers)) := by
  constructor
  · intro h
    simp [ktask_chunk_size, h]
  · intro h2
    have hne : workers ≠ 1 := by omega
    unfold ktask_chunk_size
    simp only [hne, if_false]
    set c := (total / workers) >>> KTASK_LOAD_BAL_SHIFT with hc
    by_cases hcm : c > min_grain
    · simp only [hcm, if_true, rounddown_eq_div_mul]
      refine ⟨le_max_right _ _, fun hlt => ?_⟩
      rcases max_choice (c / min_grain * min_grain) min_grain with hmax | hmax
      · rw [hmax]
        exact dvd_mul_left min_grain (c / min_grain)
      · rw [hmax] at hlt
        omega
    · simp only [hcm, if_false]
      have hle : c ≤ min_grain := by omega
      rw [Nat.max_eq_right hle]
      exact ⟨le_refl _, fun hlt => absurd hlt (lt_irrefl _)⟩

/-- C3 witness: the amended claim at `total = 100`, `min_grain = 64`,
`workers = 4` (the chunker returns 64 there). -/
theorem ktask_C3_amended_witness :
    64 ≤ ktask_chunk_size 100 64 4 ∧
    (64 < ktask_chunk_size 100 64 4 → 64 ∣ ktask_chunk_size 100 64 4) :=
  (ktask_C3_amended 100 64 4).2 (by decide)

/-! ### C4 -/

/-- C4: the chunker equals the reference algorithm of the spec — `total` when
`workers = 1`, otherwise `max(candidate2, min_grain)` with
`candidate = (total / workers) >> 2` and `candidate2` the round-down of
`candidate` to a multiple of `min_grain` when `candidate > min_grain`, else
`candidate` — and at `total = 1024`, `min_grain = 256`, `workers = 4` the
result is 256. -/
theorem ktask_C4_refines :
    (∀ total min_grain workers,
      ktask_chunk_size total min_grain workers =
        chunk_size_spec total min_grain workers) ∧
    ktask_chunk_size 1024 256 4 = 256 := by
  constructor
  · intro total min_grain workers
    unfold ktask_chunk_size chunk_size_spec KTASK_LOAD_BAL_SHIFT
    simp only [rounddown_eq_div_mul]
  · decide

/-! ### C5 -/

/-- C5: for a job with work left (`total > 0`, `min_chunk_size ≥ 1`,
some cpu online), the number of works returned by `ktask_init_works` lies
between 1 and `nr_works_check = min(DIV_ROUND_UP(total, min_chunk_size),
online cpus, max_threads')` where `max_threads'` substitutes the process
default 4 for a zero `max_threads`; it equals `nr_works_check` when the
global cap leaves room for all `nr_works_check - 1` extra reservations, and
it is 1 when the workqueue is unavailable. -/
theorem ktask_C5_nworks (wq : Bool) (cpus : Nat) (nodesL : List KtaskNode)
    (total min_chunk_size max_threads : Nat) (r : KtaskRlim)
    (htot : 0 < total) (hmin : 0 < min_chunk_size) (hcpus : 0 < cpus) :
    1 ≤ (ktask_init_works wq cpus nodesL total min_chunk_size max_threads r).1 ∧
    (ktask_init_works wq cpus nodesL total min_chunk_size max_threads r).1 ≤
      ktask_nr_works_check cpus total min_chunk_size max_threads ∧
    (wq = true →
      r.cur + (ktask_nr_works_check cpus total min_chunk_size max_threads - 1)
          ≤ r.max →
      (ktask_init_works wq cpus nodesL total min_chunk_size max_threads r).1 =
        ktask_nr_works_check cpus total min_chunk_size max_threads) ∧
    (wq = false →
      (ktask_init_works wq cpus nodesL total min_chunk_size max_threads r).1 = 1) := by
  have hcheck : 1 ≤ ktask_nr_works_check cpus total min_chunk_size max_threads := by
    unfold ktask_nr_works_check DIV_ROUND_UP
    have h1 : 1 ≤ (total + min_chunk_size - 1) / min_chunk_size :=
      (Nat.one_le_div_iff hmin).mpr (by omega)
    have h2 : (1 : Nat) ≤ if max_threads = 0 then KTASK_DEFAULT_MAX_THREADS
        else max_threads := by
      split_ifs with h
      · decide
      · omega
    omega
  cases wq with
  | false =>
    refine ⟨?_, ?_, ?_, ?_⟩ <;>
      simp [ktask_init_works, hcheck]
  | true =>
    have hiw : ktask_init_works true cpus nodesL total min_chunk_size max_threads r
        = initWorksGo nodesL
            ((List.range (ktask_nr_works_check cpus total min_chunk_size
              max_threads)).drop 1) r 1 := rfl
    have hlen : ((List.range (ktask_nr_works_check cpus total min_chunk_size
        max_threads)).drop 1).length =
        ktask_nr_works_check cpus total min_chunk_size max_threads - 1 := by
      rw [List.length_drop, List.length_range]
    refine ⟨?_, ?_, ?_, ?_⟩
    · rw [hiw]
      exact initWorksGo_ge nodesL _ r 1
    · rw [hiw]
      have h := initWorksGo_le nodesL
        ((List.range (ktask_nr_works_check cpus total min_chunk_size
          max_threads)).drop 1) r 1
      rw [hlen] at h
      omega
    · intro _ hroom
      rw [hiw]
      have h := initWorksGo_full nodesL
        ((List.range (ktask_nr_works_check cpus total min_chunk_size
          max_threads)).drop 1) r 1 (by rw [hlen]; exact hroom)
      rw [hlen] at h
      omega
    · intro h
      exact absurd h (by simp)

/-- C5 witness: a 1024-byte job with 64-byte grain, `max_threads = 0`
(process default 4), 8 cpus, ample caps: `nr_works_check = 4` and all four
conclusions hold at `rlimA`. -/
theorem ktask_C5_nworks_witness :
    1 ≤ (ktask_init_works true 8 [⟨0, 1024, 0⟩] 1024 64 0 rlimA).1 ∧
    (ktask_init_works true 8 [⟨0, 1024, 0⟩] 1024 64 0 rlimA).1 ≤
      ktask_nr_works_check 8 1024 64 0 ∧
    (true = true →
      rlimA.cur + (ktask_nr_works_check 8 1024 64 0 - 1) ≤ rlimA.max →
      (ktask_init_works true 8 [⟨0, 1024, 0⟩] 1024 64 0 rlimA).1 =
        ktask_nr_works_check 8 1024 64 0) ∧
    (true = false →
      (ktask_init_works true 8 [⟨0, 1024, 0⟩] 1024 64 0 rlimA).1 = 1) :=
  ktask_C5_nworks true 8 [⟨0, 1024, 0⟩] 1024 64 0 rlimA
    (by decide) (by decide) (by decide)

/-! ### C6 -/

theorem spec_nth_nonzero_valid :
    ∀ (l : List KtaskNode) (k j : Nat), spec_nth_nonzero l k = some j →
      j < l.length ∧ (l.getD j default).kn_task_size ≠ 0
  | [], k, j, h => by simp [spec_nth_nonzero] at h
  | kn :: rest, k, j, h => by
    unfold spec_nth_nonzero at h
    split_ifs at h with h0 hk
    · rcases Option.map_eq_some'.mp h with ⟨j0, hj0, rfl⟩
      have := spec_nth_nonzero_valid rest k j0 hj0
      simpa using this
    · simp at h
      subst h
      simpa using h0
    · rcases Option.map_eq_some'.mp h with ⟨j0, hj0, rfl⟩
      have := spec_nth_nonzero_valid rest (k - 1) j0 hj0
      simpa using this

theorem pickGo_spec (r : Nat) :
    ∀ (l : List KtaskNode) (i seen : Nat), seen ≤ r →
      r - seen < l.countP (fun kn => kn.kn_task_size != 0) →
      ∃ j, spec_nth_nonzero l (r - seen) = some j ∧ pickGo r l i seen = i + j
  | [], i, seen, _, h2 => by simp at h2
  | kn :: rest, i, seen, h1, h2 => by
    rw [List.countP_cons] at h2
    by_cases h0 : kn.kn_task_size = 0
    · have h2' : r - seen < rest.countP (fun kn => kn.kn_task_size != 0) := by
        simp [h0] at h2
        exact h2
      obtain ⟨j0, hspec, hpick⟩ := pickGo_spec r rest (i + 1) seen h1 h2'
      refine ⟨j0 + 1, ?_, ?_⟩
      · simp [spec_nth_nonzero, h0, hspec]
      · simp [pickGo, h0, hpick]
        omega
    · by_cases hle : r ≤ seen
      · have hseen : seen = r := le_antisymm h1 hle
        refine ⟨0, ?_, ?_⟩
        · simp [spec_nth_nonzero, h0, hseen]
        · simp [pickGo, h0, hle]
      · have hlt : seen < r := by omega
        have h2' : r - (seen + 1) < rest.countP (fun kn => kn.kn_task_size != 0) := by
          have hcnt : (if (kn.kn_task_size != 0) = true then 1 else 0) = 1 := by
            simp [h0]
          omega
        obtain ⟨j0, hspec, hpick⟩ :=
          pickGo_spec r rest (i + 1) (seen + 1) (by omega) h2'
        refine ⟨j0 + 1, ?_, ?_⟩
        · have hknz : r - seen ≠ 0 := by omega
          have harg : r - seen - 1 = r - (seen + 1) := by omega
          simp [spec_nth_nonzero, h0, hknz, harg, hspec]
        · simp [pickGo, h0, hle, hpick]
          omega

/-- C6: whenever `r` is below the number of descriptors with remaining work,
the scan of ktask.c lines 186-194 stops exactly at the index of the
`(r+1)`-th descriptor (counting in array order, only descriptors with
`kn_task_size > 0`), as computed by the spec's selection rule
`spec_nth_nonzero`. -/
theorem ktask_C6_pick (nodesL : List KtaskNode) (r : Nat)
    (h : r < nodesL.countP (fun kn => kn.kn_task_size != 0)) :
    ∃ j, spec_nth_nonzero nodesL r = some j ∧ ktask_pick_node nodesL r = j ∧
      j < nodesL.length ∧ (nodesL.getD j default).kn_task_size ≠ 0 := by
  obtain ⟨j, hspec, hpick⟩ :=
    pickGo_spec r nodesL 0 0 (Nat.zero_le _) (by simpa using h)
  have := spec_nth_nonzero_valid nodesL r j (by simpa using hspec)
  exact ⟨j, by simpa using hspec, by simpa [ktask_pick_node] using hpick,
    this.1, this.2⟩

/-- C6 witness: in the array with work remaining only at indices 1 and 3,
drawing `r = 1` selects index 3 (the second descriptor with work). -/
theorem ktask_C6_pick_witness :
    ∃ j, spec_nth_nonzero [⟨0, 0, 0⟩, ⟨0, 5, 1⟩, ⟨0, 0, 2⟩, ⟨0, 7, 3⟩] 1 = some j ∧
      ktask_pick_node [⟨0, 0, 0⟩, ⟨0, 5, 1⟩, ⟨0, 0, 2⟩, ⟨0, 7, 3⟩] 1 = j ∧
      j < ([⟨0, 0, 0⟩, ⟨0, 5, 1⟩, ⟨0, 0, 2⟩, ⟨0, 7, 3⟩] : List KtaskNode).length ∧
      (([⟨0, 0, 0⟩, ⟨0, 5, 1⟩, ⟨0, 0, 2⟩, ⟨0, 7, 3⟩] : List KtaskNode).getD j
        default).kn_task_size ≠ 0 :=
  ktask_C6_pick [⟨0, 0, 0⟩, ⟨0, 5, 1⟩, ⟨0, 0, 2⟩, ⟨0, 7, 3⟩] 1 (by decide)

/-! ### C8 -/

/-- C8: for every node array whose sizes sum to 0 (`nr_nodes = 0` included)
and every control structure, `ktask_run_numa` returns SUCCESS immediately:
the processing callback is never invoked and the governor counters are
returned unchanged. -/
theorem ktask_C8_empty (fuel : Nat) (nodesL : List KtaskNode)
    (min_chunk_size max_threads cpus : Nat) (proc : Nat → Nat → Int)
    (rand : Nat → Nat) (wq : Bool) (r : KtaskRlim)
    (h : (nodesL.map (fun kn => kn.kn_task_size)).sum = 0) :
    ktask_run_numa_model fuel nodesL min_chunk_size max_threads proc rand wq
      cpus r = some ⟨KTASK_RETURN_SUCCESS, [], r⟩ := by
  unfold ktask_run_numa_model
  simp [h]

/-- C8 witness: the spec's scenario 1 — `total_size = 0`, `min = 64`,
`max_threads = 4` — returns SUCCESS with no processing calls and `rlimA`
untouched. -/
theorem ktask_C8_empty_witness :
    ktask_run_numa_model 3 [⟨4096, 0, 0⟩] 64 4 (fun _ _ => 0) (fun _ => 0)
      true 8 rlimA = some ⟨KTASK_RETURN_SUCCESS, [], rlimA⟩ :=
  ktask_C8_empty 3 [⟨4096, 0, 0⟩] 64 4 8 (fun _ _ => 0) (fun _ => 0) true rlimA
    (by decide)

/-! ### C1 -/

/-- C1: the per-node cap invariant fails.  On a two-node host with per-node
caps 1 (`rlimC1`), reserving one worker bound to node 0 and one bound to
node 1 (both reservations granted by `ktask_try_reserve`), and then migrating
the node-0 worker to node 1 — a migration `ktask_node_migrate` permits
(`ktask_node_migrate_guard` holds) — makes the re-pin of ktask.c lines
142-154 increment node 1's counter to 2 although node 1 was already at its
cap 1: the code tests the OLD binding's counter `ktask_rlim_node_cur[0]`
instead of the destination's, so `in_flight_node[1] = 2 > cap_node[1] = 1`. -/
theorem ktask_C1_bug :
    ktask_node_migrate_guard true true 0 1 2 = true ∧
    ∃ r1 r2 : KtaskRlim, ∃ n1 n2 : Int,
      ktask_try_reserve rlimC1 0 = some (r1, n1) ∧ n1 = 0 ∧
      ktask_try_reserve r1 1 = some (r2, n2) ∧ n2 = 1 ∧
      r2.node_cur 1 = r2.node_max 1 ∧
      (ktask_rlim_repin r2 0 1).2 = 1 ∧
      (ktask_rlim_repin r2 0 1).1.node_cur 1 = 2 ∧
      (ktask_rlim_repin r2 0 1).1.node_max 1 = 1 := by
  exact ⟨rfl, _, _, _, _, rfl, rfl, rfl, rfl, rfl, rfl, rfl, rfl⟩

/-! ### C10 -/

/-- C10: the cap check of `ktask_node_migrate` indexes the per-node arrays
with the old binding `kw_queue_nid` even when that binding is the sentinel
`NUMA_NO_NODE = -1`: for a worker queued with no node preference
(`kw_queue_nid = NUMA_NO_NODE`) migrating to node 1 — a situation the
migration guard permits — the reads of ktask.c line 147-148 use index -1,
which is not a valid node id for any number of possible nodes. -/
theorem ktask_C10_bug :
    ktask_node_migrate_guard true true 0 1 2 = true ∧
    NUMA_NO_NODE ∈ ktask_node_migrate_rlim_reads NUMA_NO_NODE 1 ∧
    ∀ nr_possible : Nat,
      ¬ (0 ≤ NUMA_NO_NODE ∧ NUMA_NO_NODE < (nr_possible : Int)) := by
  refine ⟨rfl, by decide, fun n h => ?_⟩
  have : ¬ (0 : Int) ≤ NUMA_NO_NODE := by decide
  exact this h.1

/-! ### Worker-loop trace lemmas -/

theorem claimNode_nodes_self (st : KJob) (i : Nat) :
    ((claimNode st i).1.nodes) i =
      ⟨(st.nodes i).kn_start + min st.kt_chunk_size (st.nodes i).kn_task_size,
       (st.nodes i).kn_task_size - min st.kt_chunk_size (st.nodes i).kn_task_size,
       (st.nodes i).kn_nid⟩ := by
  simp [claimNode, ktask_iter_range, Function.update_same]

theorem claimNode_nodes_other (st : KJob) (i j : Nat) (h : j ≠ i) :
    ((claimNode st i).1.nodes) j = st.nodes j := by
  simp [claimNode, Function.update_noteq h]

theorem claimNode_total (st : KJob) (i : Nat) :
    (claimNode st i).1.kt_total_size =
      st.kt_total_size - min st.kt_chunk_size (st.nodes i).kn_task_size := rfl

theorem claimNode_range (st : KJob) (i : Nat) :
    (claimNode st i).2 =
      ((st.nodes i).kn_start,
       (st.nodes i).kn_start + min st.kt_chunk_size (st.nodes i).kn_task_size) := rfl

theorem kstep_frame {s s2 : KJob} {e : KEvent} (h : KStep s e s2) :
    s2.kt_nr_nodes = s.kt_nr_nodes ∧ s2.kt_chunk_size = s.kt_chunk_size := by
  cases h <;> exact ⟨rfl, rfl⟩

theorem krun_frame {s s2 : KJob} {tr : List KEvent} (h : KRun s tr s2) :
    s2.kt_nr_nodes = s.kt_nr_nodes ∧ s2.kt_chunk_size = s.kt_chunk_size := by
  induction h with
  | nil _ => exact ⟨rfl, rfl⟩
  | cons hstep _ ih =>
    obtain ⟨h1, h2⟩ := kstep_frame hstep
    exact ⟨ih.1.trans h1, ih.2.trans h2⟩

theorem kstep_error_mono {s s2 : KJob} {e : KEvent} (h : KStep s e s2)
    (he : s.kt_error ≠ KTASK_RETURN_SUCCESS) : s2.kt_error = s.kt_error := by
  cases h with
  | claim i herr htot hact hi hsz => exact absurd herr he
  | finish ret =>
    show (if s.kt_error = KTASK_RETURN_SUCCESS ∧ ret ≠ s.kt_error then ret
      else s.kt_error) = s.kt_error
    exact if_neg (fun hc => he hc.1)
  | exits hact hguard => rfl

theorem krun_error_mono : ∀ {s s2 : KJob} {tr : List KEvent}, KRun s tr s2 →
    s.kt_error ≠ KTASK_RETURN_SUCCESS → s2.kt_error = s.kt_error
  | _, _, _, KRun.nil _, _ => rfl
  | _, _, _, KRun.cons hstep hrest, he => by
    have h1 := kstep_error_mono hstep he
    rw [krun_error_mono hrest (h1 ▸ he), h1]

theorem krun_firstErr : ∀ {s s2 : KJob} {tr : List KEvent}, KRun s tr s2 →
    s.kt_error = KTASK_RETURN_SUCCESS → s2.kt_error = firstErr (finishRets tr)
  | _, _, _, KRun.nil _, hs => by simpa [firstErr, finishRets] using hs
  | _, _, _, @KRun.cons st st2 st3 e0 tr2 hstep hrest, hs => by
    cases hstep with
    | claim i herr htot hact hi hsz =>
      have hmid : (claimNode st i).1.kt_error = KTASK_RETURN_SUCCESS := hs
      simpa [finishRets] using krun_firstErr hrest hmid
    | finish ret =>
      by_cases hret : ret = KTASK_RETURN_SUCCESS
      · have hmid : ({ st with
            kt_error := if st.kt_error = KTASK_RETURN_SUCCESS ∧ ret ≠ st.kt_error
              then ret else st.kt_error } : KJob).kt_error = KTASK_RETURN_SUCCESS := by
          show (if st.kt_error = KTASK_RETURN_SUCCESS ∧ ret ≠ st.kt_error then ret
            else st.kt_error) = KTASK_RETURN_SUCCESS
          rw [if_neg (fun hc => hc.2 (hret.trans hs.symm))]
          exact hs
        simpa [finishRets, firstErr, hret] using krun_firstErr hrest hmid
      · have hmid : ({ st with
            kt_error := if st.kt_error = KTASK_RETURN_SUCCESS ∧ ret ≠ st.kt_error
              then ret else st.kt_error } : KJob).kt_error = ret := by
          show (if st.kt_error = KTASK_RETURN_SUCCESS ∧ ret ≠ st.kt_error then ret
            else st.kt_error) = ret
          exact if_pos ⟨hs, fun hc => hret (hc.trans hs)⟩
        have hfin := krun_error_mono hrest (by rw [hmid]; exact hret)
        rw [hfin, hmid]
        simp [finishRets, firstErr, hret]
    | exits hact hguard =>
      simpa [finishRets] using krun_firstErr hrest hs

theorem krun_no_claim : ∀ {s s2 : KJob} {tr : List KEvent}, KRun s tr s2 →
    s.kt_error ≠ KTASK_RETURN_SUCCESS →
    ∀ e ∈ tr, ∀ i rg, e ≠ KEvent.claim i rg
  | _, _, _, KRun.nil _, _ => by
    intro e he2
    exact absurd he2 (List.not_mem_nil e)
  | _, _, _, @KRun.cons st st2 st3 e0 tr2 hstep hrest, he => by
    intro e hmem i rg
    rcases List.mem_cons.mp hmem with rfl | htail
    · cases hstep with
      | claim j herr htot hact hi hsz => exact absurd herr he
      | finish ret => intro hcon; cases hcon
      | exits hact hguard => intro hcon; cases hcon
    · exact krun_no_claim hrest
        (by rw [kstep_error_mono hstep he]; exact he) e htail i rg

theorem krun_append_split :
    ∀ {tr1 : List KEvent} {s s2 : KJob} {tr2 : List KEvent},
      KRun s (tr1 ++ tr2) s2 → ∃ s1, KRun s tr1 s1 ∧ KRun s1 tr2 s2
  | [], s, s2, tr2, h => ⟨s, KRun.nil s, h⟩
  | e :: tr1, s, s2, tr2, h => by
    cases h with
    | cons hstep hrest =>
      obtain ⟨s1, h1, h2⟩ := krun_append_split hrest
      exact ⟨s1, KRun.cons hstep h1, h2⟩

theorem firstErr_eq_success_iff :
    ∀ l : List Int, firstErr l = KTASK_RETURN_SUCCESS ↔
      ∀ ret ∈ l, ret = KTASK_RETURN_SUCCESS
  | [] => by simp [firstErr]
  | ret :: l => by
    by_cases h : ret = KTASK_RETURN_SUCCESS
    · simp [firstErr, h, firstErr_eq_success_iff l]
    · simp [firstErr, h]

/-! ### C7 -/

/-- C7: from a job state with `kt_error = SUCCESS`, along any interleaved run
of the worker loop: the final `kt_error` — the value `ktask_run_numa` returns
— equals the first non-SUCCESS processing-callback return recorded (SUCCESS
when there is none); it is SUCCESS iff every recorded return was SUCCESS; and
once some non-SUCCESS return has been recorded, no further chunk is claimed
anywhere in the rest of the trace. -/
theorem ktask_C7_first_error (s s2 : KJob) (tr : List KEvent)
    (hrun : KRun s tr s2) (hs : s.kt_error = KTASK_RETURN_SUCCESS) :
    s2.kt_error = firstErr (finishRets tr) ∧
    (s2.kt_error = KTASK_RETURN_SUCCESS ↔
      ∀ ret ∈ finishRets tr, ret = KTASK_RETURN_SUCCESS) ∧
    (∀ tr1 ret tr2, tr = tr1 ++ (KEvent.finish ret :: tr2) →
      ret ≠ KTASK_RETURN_SUCCESS →
      ∀ e ∈ tr2, ∀ i rg, e ≠ KEvent.claim i rg) := by
  refine ⟨krun_firstErr hrun hs, ?_, ?_⟩
  · rw [krun_firstErr hrun hs]
    exact firstErr_eq_success_iff (finishRets tr)
  · intro tr1 ret tr2 htr hret
    rw [htr] at hrun
    obtain ⟨s1, h1, h2⟩ := krun_append_split hrun
    cases h2 with
    | cons hstep hrest =>
      cases hstep with
      | finish =>
        refine krun_no_claim hrest ?_
        show (if s1.kt_error = KTASK_RETURN_SUCCESS ∧ ret ≠ s1.kt_error then ret
          else s1.kt_error) ≠ KTASK_RETURN_SUCCESS
        by_cases hc : s1.kt_error = KTASK_RETURN_SUCCESS ∧ ret ≠ s1.kt_error
        · rw [if_pos hc]
          exact fun hcon => hc.2 (hcon.trans hc.1.symm)
        · rw [if_neg hc]
          intro hcon
          exact hc ⟨hcon, fun hcon2 => hret (hcon2.trans hcon)⟩

/-- C7 witness: the worker of `jobB` claims one chunk, a callback returns 7,
and the loop exits; the latched error is 7 and no claim follows the error. -/
theorem ktask_C7_first_error_witness :
    jobBFin.kt_error = firstErr (finishRets trB) ∧
    (jobBFin.kt_error = KTASK_RETURN_SUCCESS ↔
      ∀ ret ∈ finishRets trB, ret = KTASK_RETURN_SUCCESS) ∧
    (∀ tr1 ret tr2, trB = tr1 ++ (KEvent.finish ret :: tr2) →
      ret ≠ KTASK_RETURN_SUCCESS →
      ∀ e ∈ tr2, ∀ i rg, e ≠ KEvent.claim i rg) :=
  ktask_C7_first_error jobB jobBFin trB
    (KRun.cons
      (KStep.claim jobB 0 (by decide) (by decide) (by decide) (by decide)
        (by decide))
      (KRun.cons (KStep.finish jobB1 7)
        (KRun.cons (KStep.exits jobB2 (by decide) (by decide))
          (KRun.nil jobBFin))))
    (by decide)

/-! ### C9 -/

theorem claimNode_nr (st : KJob) (i : Nat) :
    (claimNode st i).1.kt_nr_nodes = st.kt_nr_nodes := rfl

theorem kstep_totalInv {s s2 : KJob} {e : KEvent} (h : KStep s e s2)
    (hinv : TotalInv s) : TotalInv s2 := by
  cases h with
  | claim i herr htot hact hi hsz =>
    have hmem : i ∈ Finset.range s.kt_nr_nodes := Finset.mem_range.mpr hi
    have hcong : ∑ j in Finset.range s.kt_nr_nodes,
        ((claimNode s i).1.nodes j).kn_task_size =
        ∑ j in Finset.range s.kt_nr_nodes,
          (Function.update (fun k => (s.nodes k).kn_task_size) i
            ((s.nodes i).kn_task_size -
              min s.kt_chunk_size (s.nodes i).kn_task_size)) j := by
      refine Finset.sum_congr rfl (fun j _ => ?_)
      by_cases hj : j = i
      · subst hj
        rw [claimNode_nodes_self, Function.update_same]
      · rw [claimNode_nodes_other s i j hj, Function.update_noteq hj]
    have hupd := Finset.sum_update_of_mem hmem
      (fun k => (s.nodes k).kn_task_size)
      ((s.nodes i).kn_task_size - min s.kt_chunk_size (s.nodes i).kn_task_size)
    have hsplit := Finset.sum_eq_sum_diff_singleton_add hmem
      (fun k => (s.nodes k).kn_task_size)
    have hmin := Nat.min_le_right s.kt_chunk_size (s.nodes i).kn_task_size
    unfold TotalInv at hinv ⊢
    rw [claimNode_nr, claimNode_total, hcong, hupd]
    omega
  | finish ret => exact hinv
  | exits hact hguard => exact hinv

theorem krun_totalInv : ∀ {s s2 : KJob} {tr : List KEvent}, KRun s tr s2 →
    TotalInv s → TotalInv s2
  | _, _, _, KRun.nil _, hinv => hinv
  | _, _, _, KRun.cons hstep hrest, hinv =>
    krun_totalInv hrest (kstep_totalInv hstep hinv)

theorem krun_claim_bound : ∀ {s s2 : KJob} {tr : List KEvent}, KRun s tr s2 →
    0 < s.kt_chunk_size → claimCount tr + s2.kt_total_size ≤ s.kt_total_size
  | _, _, _, KRun.nil _, _ => by simp [claimCount]
  | _, _, _, @KRun.cons st st2 st3 e0 tr2 hstep hrest, hchunk => by
    cases hstep with
    | claim i herr htot hact hi hsz =>
      have hrec := krun_claim_bound hrest hchunk
      rw [claimNode_total] at hrec
      have hsz2 : 0 < min st.kt_chunk_size (st.nodes i).kn_task_size :=
        lt_min hchunk hsz
      simp only [claimCount]
      omega
    | finish ret =>
      simpa [claimCount] using krun_claim_bound hrest hchunk
    | exits hact hguard =>
      simpa [claimCount] using krun_claim_bound hrest hchunk

theorem krun_exit_all : ∀ (n : Nat) (s : KJob), s.active = n →
    (s.kt_total_size = 0 ∨ s.kt_error ≠ KTASK_RETURN_SUCCESS) →
    ∃ tr s2, KRun s tr s2 ∧ s2.active = 0 ∧
      s2.kt_total_size = s.kt_total_size
  | 0, s, h, _ => ⟨[], s, KRun.nil s, h, rfl⟩
  | n + 1, s, h, hg => by
    have hstep : KStep s .exits { s with active := s.active - 1 } :=
      KStep.exits s (by omega) hg
    obtain ⟨tr, s2, hrun, hact, htot⟩ :=
      krun_exit_all n { s with active := s.active - 1 } (by simp [h]) hg
    exact ⟨.exits :: tr, s2, KRun.cons hstep hrun, hact, htot⟩

theorem krun_completion : ∀ (t : Nat) (s : KJob), s.kt_total_size ≤ t →
    TotalInv s → 0 < s.kt_chunk_size →
    ∃ tr s2, KRun s tr s2 ∧ s2.active = 0
  | 0, s, hle, _, _ => by
    obtain ⟨tr, s2, hrun, hact, _⟩ :=
      krun_exit_all s.active s rfl (Or.inl (by omega))
    exact ⟨tr, s2, hrun, hact⟩
  | t + 1, s, hle, hinv, hchunk => by
    by_cases htot : s.kt_total_size = 0
    · obtain ⟨tr, s2, hrun, hact, _⟩ :=
        krun_exit_all s.active s rfl (Or.inl htot)
      exact ⟨tr, s2, hrun, hact⟩
    · by_cases herr : s.kt_error = KTASK_RETURN_SUCCESS
      · by_cases hact0 : s.active = 0
        · exact ⟨[], s, KRun.nil s, hact0⟩
        · have hex : ∃ i, i < s.kt_nr_nodes ∧ 0 < (s.nodes i).kn_task_size := by
            by_contra hna
            push_neg at hna
            have hzero : ∑ j in Finset.range s.kt_nr_nodes,
                (s.nodes j).kn_task_size = 0 :=
              Finset.sum_eq_zero (fun j hj => by
                have := hna j (Finset.mem_range.mp hj)
                omega)
            rw [TotalInv] at hinv
            omega
          obtain ⟨i, hi, hsz⟩ := hex
          have hstep : KStep s (.claim i (claimNode s i).2) (claimNode s i).1 :=
            KStep.claim s i herr (by omega) (by omega) hi hsz
          have hmin : 0 < min s.kt_chunk_size (s.nodes i).kn_task_size :=
            lt_min hchunk hsz
          have hle2 : (claimNode s i).1.kt_total_size ≤ t := by
            rw [claimNode_total]
            omega
          obtain ⟨tr, s2, hrun, hact⟩ :=
            krun_completion t (claimNode s i).1 hle2
              (kstep_totalInv hstep hinv) hchunk
          exact ⟨KEvent.claim i (claimNode s i).2 :: tr, s2,
            KRun.cons hstep hrun, hact⟩
      · obtain ⟨tr, s2, hrun, hact, _⟩ :=
          krun_exit_all s.active s rfl (Or.inr herr)
        exact ⟨tr, s2, hrun, hact⟩

/-- C9: along any run of the worker loop with a positive chunk size and a
consistent total (`TotalInv`), the number of chunk claims is bounded by the
initial `kt_total_size` (each claim consumes at least one unit), and from any
reached state the run can be completed: there is a continuation after which
every worker has left the loop, itself claiming at most the remaining
total. -/
theorem ktask_C9_terminates (s s2 : KJob) (tr : List KEvent)
    (hrun : KRun s tr s2) (hchunk : 0 < s.kt_chunk_size) (hinv : TotalInv s) :
    claimCount tr + s2.kt_total_size ≤ s.kt_total_size ∧
    ∃ tr2 s3, KRun s2 tr2 s3 ∧ s3.active = 0 ∧
      claimCount tr2 + s3.kt_total_size ≤ s2.kt_total_size := by
  have hchunk2 : 0 < s2.kt_chunk_size := by
    rw [(krun_frame hrun).2]
    exact hchunk
  have hinv2 : TotalInv s2 := krun_totalInv hrun hinv
  refine ⟨krun_claim_bound hrun hchunk, ?_⟩
  obtain ⟨tr2, s3, hrun2, hact⟩ :=
    krun_completion s2.kt_total_size s2 (le_refl _) hinv2 hchunk2
  exact ⟨tr2, s3, hrun2, hact, krun_claim_bound hrun2 hchunk2⟩

/-- C9 witness: the single-worker run of `jobA` claims once (4 bytes of 4)
and exits; the bound and the completion continuation hold. -/
theorem ktask_C9_terminates_witness :
    claimCount trA + jobAFin.kt_total_size ≤ jobA.kt_total_size ∧
    ∃ tr2 s3, KRun jobAFin tr2 s3 ∧ s3.active = 0 ∧
      claimCount tr2 + s3.kt_total_size ≤ jobAFin.kt_total_size :=
  ktask_C9_terminates jobA jobAFin trA
    (KRun.cons
      (KStep.claim jobA 0 (by decide) (by decide) (by decide) (by decide)
        (by decide))
      (KRun.cons (KStep.exits jobA1 (by decide) (by decide))
        (KRun.nil jobAFin)))
    (by decide) (by unfold TotalInv; rfl)

/-! ### C2 -/

theorem claimNode_size_self (st : KJob) (i : Nat) :
    ((claimNode st i).1.nodes i).kn_task_size =
      (st.nodes i).kn_task_size -
        min st.kt_chunk_size (st.nodes i).kn_task_size := by
  rw [claimNode_nodes_self]

theorem claimNode_start_self (st : KJob) (i : Nat) :
    ((claimNode st i).1.nodes i).kn_start =
      (st.nodes i).kn_start + min st.kt_chunk_size (st.nodes i).kn_task_size := by
  rw [claimNode_nodes_self]

theorem RDisj_iff (a b c d : Nat) :
    RDisj (a, b) (c, d) ↔ (b ≤ c ∨ d ≤ a) := Iff.rfl

theorem nodeRanges_claim_self (i : Nat) (r : Nat × Nat) (tr : List KEvent) :
    nodeRanges i (KEvent.claim i r :: tr) = r :: nodeRanges i tr := by
  simp [nodeRanges]

theorem nodeRanges_claim_other {i j : Nat} (h : j ≠ i) (r : Nat × Nat)
    (tr : List KEvent) :
    nodeRanges i (KEvent.claim j r :: tr) = nodeRanges i tr := by
  simp [nodeRanges, h]

theorem ktask_task_init_nodes (nodes0 : Nat → KtaskNode) (nr chunk nworks : Nat) :
    (ktask_task_init nodes0 nr chunk nworks).nodes = nodes0 := rfl

theorem kstep_endInv {s s2 : KJob} {e : KEvent} (h : KStep s e s2)
    (hi : EndInv s) : EndInv s2 := by
  cases h with
  | claim i herr htot hact hi2 hsz =>
    intro ha _
    exact absurd (show s.active = 0 from ha) (by omega)
  | finish ret =>
    intro ha he
    have he2 : (if s.kt_error = KTASK_RETURN_SUCCESS ∧ ret ≠ s.kt_error then ret
      else s.kt_error) = KTASK_RETURN_SUCCESS := he
    by_cases hc : s.kt_error = KTASK_RETURN_SUCCESS ∧ ret ≠ s.kt_error
    · rw [if_pos hc] at he2
      exact absurd (he2.trans hc.1.symm) hc.2
    · rw [if_neg hc] at he2
      exact hi ha he2
  | exits hact hguard =>
    intro ha he
    rcases hguard with h0 | hne
    · exact h0
    · exact absurd (show s.kt_error = KTASK_RETURN_SUCCESS from he) hne

theorem krun_endInv : ∀ {s s2 : KJob} {tr : List KEvent}, KRun s tr s2 →
    EndInv s → EndInv s2
  | _, _, _, KRun.nil _, hi => hi
  | _, _, _, KRun.cons hstep hrest, hi =>
    krun_endInv hrest (kstep_endInv hstep hi)

theorem krun_node_progress : ∀ {s s2 : KJob} {tr : List KEvent}, KRun s tr s2 →
    ∀ i, (s2.nodes i).kn_task_size ≤ (s.nodes i).kn_task_size ∧
      (s2.nodes i).kn_start = (s.nodes i).kn_start +
        ((s.nodes i).kn_task_size - (s2.nodes i).kn_task_size) ∧
      IsChain (s.nodes i).kn_start (nodeRanges i tr) (s2.nodes i).kn_start
  | _, _, _, KRun.nil _, i => ⟨le_refl _, by omega, rfl⟩
  | _, _, _, @KRun.cons st st2 st3 e0 tr2 hstep hrest, i => by
    cases hstep with
    | claim j herr htot hact hi hsz =>
      obtain ⟨ih1, ih2, ih3⟩ := krun_node_progress hrest i
      have hmin := Nat.min_le_right st.kt_chunk_size (st.nodes j).kn_task_size
      by_cases hji : j = i
      · subst hji
        rw [claimNode_size_self] at ih1 ih2
        rw [claimNode_start_self] at ih2 ih3
        refine ⟨by omega, by omega, ?_⟩
        rw [nodeRanges_claim_self]
        rw [claimNode_range]
        exact ⟨rfl, Nat.le_add_right _ _, ih3⟩
      · rw [claimNode_nodes_other st j i (fun h => hji h.symm)] at ih1 ih2 ih3
        refine ⟨ih1, ih2, ?_⟩
        rw [nodeRanges_claim_other hji]
        exact ih3
    | finish ret => exact krun_node_progress hrest i
    | exits hact hguard => exact krun_node_progress hrest i

theorem kstep_spanDisj {s s2 : KJob} {e : KEvent} (h : KStep s e s2)
    (hs : SpanDisj s) : SpanDisj s2 := by
  cases h with
  | claim i herr htot hact hi hsz =>
    intro a b ha hb hne
    have ha2 : a < s.kt_nr_nodes := ha
    have hb2 : b < s.kt_nr_nodes := hb
    have hmin := Nat.min_le_right s.kt_chunk_size (s.nodes i).kn_task_size
    have hsab := hs a b ha2 hb2 hne
    by_cases hai : a = i
    · by_cases hbi : b = i
      · exact absurd (hai.trans hbi.symm) hne
      · subst hai
        rw [claimNode_start_self, claimNode_size_self,
          claimNode_nodes_other s a b hbi]
        omega
    · by_cases hbi : b = i
      · subst hbi
        rw [claimNode_start_self, claimNode_size_self,
          claimNode_nodes_other s b a hai]
        omega
      · rw [claimNode_nodes_other s i a hai, claimNode_nodes_other s i b hbi]
        exact hsab
  | finish ret => exact hs
  | exits hact hguard => exact hs

theorem isChain_le : ∀ {l : List (Nat × Nat)} {a b : Nat}, IsChain a l b →
    a ≤ b ∧ ∀ r ∈ l, a ≤ r.1 ∧ r.2 ≤ b
  | [], a, b, h => by
    have h2 : a = b := h
    subst h2
    exact ⟨le_refl _, by simp⟩
  | r :: l, a, b, h => by
    obtain ⟨h1, h2, h3⟩ := h
    obtain ⟨ihb, ihm⟩ := isChain_le h3
    refine ⟨le_trans h2 ihb, ?_⟩
    intro r2 hmem
    rcases List.mem_cons.mp hmem with rfl | hm2
    · exact ⟨le_of_eq h1.symm, ihb⟩
    · have := ihm r2 hm2
      exact ⟨le_trans h2 this.1, this.2⟩

theorem isChain_mem_iff : ∀ (l : List (Nat × Nat)) (a b : Nat), IsChain a l b →
    ∀ x, (∃ r, r ∈ l ∧ r.1 ≤ x ∧ x < r.2) ↔ (a ≤ x ∧ x < b)
  | [], a, b, h, x => by
    have h2 : a = b := h
    subst h2
    simp
  | r0 :: l, a, b, h, x => by
    obtain ⟨h1, h2, h3⟩ := h
    have hb := (isChain_le h3).1
    have ih := isChain_mem_iff l r0.2 b h3 x
    constructor
    · rintro ⟨r, hr, hx1, hx2⟩
      rcases List.mem_cons.mp hr with rfl | hr2
      · omega
      · have := ih.mp ⟨r, hr2, hx1, hx2⟩
        omega
    · intro hx
      by_cases hcase : x < r0.2
      · exact ⟨r0, List.mem_cons_self _ _, by omega, hcase⟩
      · obtain ⟨r, hr, hxx⟩ := ih.mpr (by omega)
        exact ⟨r, List.mem_cons_of_mem _ hr, hxx⟩

theorem krun_allRanges_mem : ∀ {s s2 : KJob} {tr : List KEvent}, KRun s tr s2 →
    ∀ r ∈ allRanges tr, ∃ j, j < s.kt_nr_nodes ∧ r ∈ nodeRanges j tr
  | _, _, _, KRun.nil _ => by
    intro r hmem
    simp [allRanges] at hmem
  | _, _, _, @KRun.cons st st2 st3 e0 tr2 hstep hrest => by
    intro r hmem
    cases hstep with
    | claim j herr htot hact hi hsz =>
      have hmem2 : r ∈ (claimNode st j).2 :: allRanges tr2 := hmem
      rcases List.mem_cons.mp hmem2 with heq | htail
      · subst heq
        refine ⟨j, hi, ?_⟩
        rw [nodeRanges_claim_self]
        exact List.mem_cons_self _ _
      · obtain ⟨j2, hj2, hmemj⟩ := krun_allRanges_mem hrest r htail
        refine ⟨j2, hj2, ?_⟩
        by_cases hjj : j = j2
        · subst hjj
          rw [nodeRanges_claim_self]
          exact List.mem_cons_of_mem _ hmemj
        · rw [nodeRanges_claim_other hjj]
          exact hmemj
    | finish ret =>
      obtain ⟨j2, hj2, hmemj⟩ := krun_allRanges_mem hrest r hmem
      exact ⟨j2, hj2, hmemj⟩
    | exits hact hguard =>
      obtain ⟨j2, hj2, hmemj⟩ := krun_allRanges_mem hrest r hmem
      exact ⟨j2, hj2, hmemj⟩

theorem krun_pairwise : ∀ {s s2 : KJob} {tr : List KEvent}, KRun s tr s2 →
    SpanDisj s → (allRanges tr).Pairwise RDisj
  | _, _, _, KRun.nil _, _ => List.Pairwise.nil
  | _, _, _, @KRun.cons st st2 st3 e0 tr2 hstep hrest, hspan => by
    cases hstep with
    | claim i herr htot hact hi hsz =>
      have hspan2 : SpanDisj (claimNode st i).1 :=
        kstep_spanDisj (KStep.claim st i herr htot hact hi hsz) hspan
      have htail := krun_pairwise hrest hspan2
      show ((claimNode st i).2 :: allRanges tr2).Pairwise RDisj
      refine List.Pairwise.cons ?_ htail
      intro r2 hmem
      obtain ⟨j, hj, hmemj⟩ := krun_allRanges_mem hrest r2 hmem
      obtain ⟨hp1, hp2, hp3⟩ := krun_node_progress hrest j
      obtain ⟨hcb, hcm⟩ := isChain_le hp3
      have hr2 := hcm r2 hmemj
      have hmin := Nat.min_le_right st.kt_chunk_size (st.nodes i).kn_task_size
      have hgoal : RDisj (claimNode st i).2 r2 ↔
          ((st.nodes i).kn_start +
              min st.kt_chunk_size (st.nodes i).kn_task_size ≤ r2.1 ∨
            r2.2 ≤ (st.nodes i).kn_start) := Iff.rfl
      rw [hgoal]
      by_cases hji : j = i
      · rw [hji] at hr2
        rw [claimNode_start_self] at hr2
        omega
      · rw [claimNode_nodes_other st i j hji] at hr2 hp1 hp2
        have hsp := hspan i j hi hj (fun h => hji h.symm)
        omega
    | finish ret =>
      have h := krun_pairwise hrest hspan
      exact h
    | exits hact hguard =>
      have h := krun_pairwise hrest hspan
      exact h

/-- C2: for every node array with pairwise-disjoint initial ranges and every
run of the worker loop that completes (`active = 0`) with `kt_error` still
SUCCESS, the ranges handed to the processing callback are pairwise disjoint,
and per node their union is exactly
`[initial kn_start, initial kn_start + initial kn_task_size)`; moreover in
the single-worker instance `run(buf=0x0, total_size=1024, min=64,
max_threads=1)` with the default iterator the callback is invoked exactly
once, with `(0x0, 0x400)`. -/
theorem ktask_C2_coverage (nodes0 : Nat → KtaskNode) (nr chunk nworks : Nat)
    (tr : List KEvent) (sf : KJob)
    (hrun : KRun (ktask_task_init nodes0 nr chunk nworks) tr sf)
    (hnw : 0 < nworks) (hdone : sf.active = 0)
    (hsuc : sf.kt_error = KTASK_RETURN_SUCCESS)
    (hspan : SpanDisj (ktask_task_init nodes0 nr chunk nworks)) :
    (allRanges tr).Pairwise RDisj ∧
    (∀ i, i < nr → ∀ x,
      (∃ r, r ∈ nodeRanges i tr ∧ r.1 ≤ x ∧ x < r.2) ↔
        ((nodes0 i).kn_start ≤ x ∧
          x < (nodes0 i).kn_start + (nodes0 i).kn_task_size)) ∧
    (ktask_run_numa_model 8 [⟨0, 1024, 0⟩] 64 1 (fun _ _ => 0) (fun _ => 0)
        true 8 rlimA).map (fun o => (o.status, o.calls)) =
      some (KTASK_RETURN_SUCCESS, [(0, 1024)]) := by
  have hend : EndInv sf := krun_endInv hrun
    (fun h0 _ => absurd (show nworks = 0 from h0) (by omega))
  have htotal0 : sf.kt_total_size = 0 := hend hdone hsuc
  have hinv0 : TotalInv (ktask_task_init nodes0 nr chunk nworks) := rfl
  have hinvf : TotalInv sf := krun_totalInv hrun hinv0
  have hnrf : sf.kt_nr_nodes = nr := (krun_frame hrun).1
  have hsizes : ∀ i, i < nr → (sf.nodes i).kn_task_size = 0 := by
    intro i hi
    have hsum : ∑ j in Finset.range sf.kt_nr_nodes,
        (sf.nodes j).kn_task_size = 0 := by
      rw [TotalInv] at hinvf
      omega
    exact Finset.sum_eq_zero_iff.mp hsum i
      (by rw [hnrf]; exact Finset.mem_range.mpr hi)
  refine ⟨krun_pairwise hrun hspan, ?_, by decide⟩
  intro i hi x
  obtain ⟨hp1, hp2, hp3⟩ := krun_node_progress hrun i
  rw [ktask_task_init_nodes] at hp1 hp2 hp3
  have hstart : (sf.nodes i).kn_start =
      (nodes0 i).kn_start + (nodes0 i).kn_task_size := by
    have hsz0 := hsizes i hi
    omega
  rw [hstart] at hp3
  exact isChain_mem_iff (nodeRanges i tr) (nodes0 i).kn_start
    ((nodes0 i).kn_start + (nodes0 i).kn_task_size) hp3 x

/-- C2 witness: the single-worker run of `jobA` (one node, 4 bytes, chunk 4)
claims `(0, 4)` once and exits with SUCCESS; both coverage conclusions and
the concrete 1024-byte scenario hold. -/
theorem ktask_C2_coverage_witness :
    (allRanges trA).Pairwise RDisj ∧
    (∀ i, i < 1 → ∀ x,
      (∃ r, r ∈ nodeRanges i trA ∧ r.1 ≤ x ∧ x < r.2) ↔
        ((nodesA i).kn_start ≤ x ∧
          x < (nodesA i).kn_start + (nodesA i).kn_task_size)) ∧
    (ktask_run_numa_model 8 [⟨0, 1024, 0⟩] 64 1 (fun _ _ => 0) (fun _ => 0)
        true 8 rlimA).map (fun o => (o.status, o.calls)) =
      some (KTASK_RETURN_SUCCESS, [(0, 1024)]) :=
  ktask_C2_coverage nodesA 1 4 1 trA jobAFin
    (KRun.cons
      (KStep.claim jobA 0 (by decide) (by decide) (by decide) (by decide)
        (by decide))
      (KRun.cons (KStep.exits jobA1 (by decide) (by decide))
        (KRun.nil jobAFin)))
    (by decide) (by decide) (by decide)
    (by
      intro i j hi hj hne
      have hi2 : i < 1 := hi
      have hj2 : j < 1 := hj
      exact absurd (by omega) hne)

end Ktask
